import Mathlib

/-!
Verification development for the sound-qr repository: a steganographic
acoustic modem that packs a QR bit matrix into 6-bit chunks per column,
maps each chunk to a tone on a 64-entry frequency grid, mixes the tones
into a carrier buffer, and recovers the matrix by single-bin spectral
probing plus winner-take-all chunk detection.

The embedding below translates the digital (exactly representable) layer
of the JavaScript sources into Lean: bit packing and reconstruction,
version specs and cycle timing, amplitude and duration guards, buffer
mixing, padding validation and ensemble bit voting.  Floating-point
transcendentals (Math.cos, Math.sin, Math.sqrt, Math.PI) are modelled as
explicit function and constant parameters over the rationals, so every
formula of the source is represented exactly while the analog layer
stays abstract.
-/

namespace SoundQR

/-! ## Version specifications (src/src/utils/qrUtils.js, getVersionSpec) -/

/-- Per-version QR parameters as returned by QRProcessor.getVersionSpec:
matrix side length, text capacity, and bits per chunk. -/
structure VersionSpec where
  size : ℕ
  capacity : ℕ
  chunkSize : ℕ
deriving DecidableEq

/-- Lookup table of QRProcessor.getVersionSpec in qrUtils.js; versions
outside 1..5 raise an unsupported-version error, modelled as none. -/
def getVersionSpec : ℕ → Option VersionSpec
  | 1 => some ⟨21, 25, 6⟩
  | 2 => some ⟨25, 47, 6⟩
  | 3 => some ⟨29, 77, 6⟩
  | 4 => some ⟨33, 114, 6⟩
  | 5 => some ⟨37, 154, 6⟩
  | _ => none

/-- Cycle timing as computed by QRProcessor.getCycleTiming in qrUtils.js:
chunk duration in ms and total cycle duration in ms. -/
structure CycleTiming where
  chunkDur : ℕ
  totalTime : ℕ
deriving DecidableEq

/-- QRProcessor.getCycleTiming (qrUtils.js lines 76-82): cols = 21 + 4(v-1),
chunksPerCol = ceil(cols/6), dataTime = cols * chunksPerCol * 60 ms,
overhead = 100 + 100 + 300 ms. -/
def getCycleTiming (version : ℕ) : CycleTiming :=
  let cols := 21 + (version - 1) * 4
  let chunksPerCol := (cols + 5) / 6
  { chunkDur := 60, totalTime := cols * chunksPerCol * 60 + (100 + 100 + 300) }

/-! ## Bit matrices -/

/-- Read entry (r, c) of a matrix stored as a list of rows; out-of-range
reads give 0, matching the javascript undefined-is-not-1 comparisons that
guard every access in the translated code paths. -/
def entryAt (m : List (List ℕ)) (r c : ℕ) : ℕ :=
  (m.getD r []).getD c 0

/-- Column col of the matrix, rows 0..size-1, as read top to bottom. -/
def columnOf (m : List (List ℕ)) (col size : ℕ) : List ℕ :=
  (List.range size).map fun r => entryAt m r col

/-! ## Encoder column packing (qrUtils.js, QRProcessor.processColumn) -/

/-- The inner bit loop of processColumn: starting from value 0, OR in
1 <<< bit for every bit position whose predicate holds, ascending. -/
def chunkBitsLSB (n : ℕ) (f : ℕ → Bool) : ℕ :=
  (List.range n).foldl (fun v b => if f b then v ||| (1 <<< b) else v) 0

/-- QRProcessor.processColumn (qrUtils.js lines 84-103): split column col
into ceil(size/chunkSize) chunks; chunk i ORs in 1 << bit whenever
row = i*chunkSize + bit is inside the matrix and entry (row, col) is 1,
i.e. LSB-first packing of the column bits read top to bottom. -/
def processColumn (m : List (List ℕ)) (col : ℕ) (spec : VersionSpec) : List ℕ :=
  (List.range ((spec.size + spec.chunkSize - 1) / spec.chunkSize)).map fun i =>
    chunkBitsLSB spec.chunkSize fun bit =>
      decide (i * spec.chunkSize + bit < spec.size ∧ entryAt m (i * spec.chunkSize + bit) col = 1)

/-! ## Decoder column reconstruction, LSB variant
(src/src/utils/soundQRDecoder.js, SoundQRDecoder.chunksToMatrixColumn) -/

/-- SoundQRDecoder.chunksToMatrixColumn (soundQRDecoder.js lines 525-539)
as the column it writes: row r receives bit r % chunkSize of chunk
r / chunkSize, extracted LSB-first with (chunkValue >> bit) & 1; rows not
covered by any chunk keep the zero the matrix was initialised with. -/
def chunksToMatrixColumn (chunks : List ℕ) (spec : VersionSpec) : List ℕ :=
  (List.range spec.size).map fun r =>
    if r / spec.chunkSize < chunks.length then
      (chunks.getD (r / spec.chunkSize) 0 >>> (r % spec.chunkSize)) &&& 1
    else 0

/-! ## Decoder column reconstruction, MSB variant
(src/unnamed/part_004, SoundQRDecoder.decodeCycle lines 360-381) -/

/-- The 6-character binary string toString(2).padStart(6, 0) of a chunk
value below 64, as a list of bits most significant first. -/
def msbBits6 (c : ℕ) : List Bool :=
  [c.testBit 5, c.testBit 4, c.testBit 3, c.testBit 2, c.testBit 1, c.testBit 0]

/-- Column reconstruction inside part_004 decodeCycle: colBits is the
concatenation of each chunk's padded binary string (MSB first), and
decodedMatrix[r][col] = colBits[r] for r below the string length, with
the zero initialisation kept elsewhere. -/
def decodeColumnMSB (chunks : List ℕ) (rows : ℕ) : List ℕ :=
  let colBits := (chunks.map msbBits6).flatten
  (List.range rows).map fun r =>
    if r < colBits.length then (if colBits.getD r false then 1 else 0) else 0

/-- Part_005 encodeQRIntoAudio emits processColumn for every column left
to right; the per-cycle digital payload is this list of chunk lists. -/
def encoderColumns (m : List (List ℕ)) (spec : VersionSpec) : List (List ℕ) :=
  (List.range spec.size).map fun col => processColumn m col spec

/-- The matrix part_004 decodeCycle reconstructs when the detected chunk
value of every slot equals the transmitted one (a perfect channel):
column col is decodeColumnMSB of the transmitted chunks of column col. -/
def decodeMatrixPart004 (cols : List (List ℕ)) (size : ℕ) : List (List ℕ) :=
  (List.range size).map fun r =>
    (List.range size).map fun c => (decodeColumnMSB (cols.getD c []) size).getD r 0

/-! ## Spectral probes

The probes run on IEEE doubles in the source.  Every double is a rational
number and Math.PI, Math.cos, Math.sin, Math.sqrt are a rational constant
and rational-valued functions, so the embedding takes them as parameters
(pi, fcos, fsin, fsq) over the rationals; arithmetic is idealised as
exact.  This keeps every formula of the source syntactically intact. -/

/-- Goertzel probe of src/unnamed/part_004 (calculateFrequencyStrength,
lines 314-337): k = 0.5 + len*freq/sampleRate, omega = 2 pi k / len,
coeff = 2 cos omega, recurrence q0 = coeff*q1 - q2 + s with shifts, and
magnitude sqrt(q1*q1 + q2*q2 - q1*q2*coeff) / len. -/
def calculateFrequencyStrength (pi : ℚ) (fcos fsq : ℚ → ℚ) (samples : List ℚ)
    (frequency sampleRate : ℚ) : ℚ :=
  let len : ℚ := samples.length
  let k := 1/2 + len * frequency / sampleRate
  let omega := 2 * pi * k / len
  let coeff := 2 * fcos omega
  let qs := samples.foldl (fun (q : ℚ × ℚ) s => (coeff * q.1 - q.2 + s, q.1)) (0, 0)
  fsq (qs.1 * qs.1 + qs.2 * qs.2 - qs.1 * qs.2 * coeff) / len

/-- Reference iteration written from the words of the spec: iterate
q0 = 2 cos(omega) q1 - q2 + sample i, then shift q2 = q1, q1 = q0. -/
def goertzelIter (twoCos : ℚ) : List ℚ → ℚ × ℚ → ℚ × ℚ
  | [], qs => qs
  | s :: rest, (q1, q2) => goertzelIter twoCos rest (twoCos * q1 - q2 + s, q1)

/-- Goertzel reference definition, following the spec clause by clause:
with k = 0.5 + len*freq/sampleRate and omega = 2 pi k / len, run the
recurrence over all samples and return
sqrt(q1^2 + q2^2 - q1*q2*2cos(omega)) / len. -/
def goertzelStrength (pi : ℚ) (fcos fsq : ℚ → ℚ) (samples : List ℚ)
    (frequency sampleRate : ℚ) : ℚ :=
  let len : ℚ := samples.length
  let k := 1/2 + len * frequency / sampleRate
  let omega := 2 * pi * k / len
  let qs := goertzelIter (2 * fcos omega) samples (0, 0)
  fsq (qs.1 ^ 2 + qs.2 ^ 2 - qs.1 * qs.2 * (2 * fcos omega)) / len

/-- Direct-DFT probe of src/src/utils/soundQRDecoder.js
(calculateFrequencyStrength, lines 374-395): empty input returns 0,
otherwise sum s_i sin(omega i) and s_i cos(omega i) over the first
min(length, floor(sampleRate * 0.02)) samples only, with
omega = 2 pi freq / sampleRate, and return sqrt(sumSin^2 + sumCos^2)
divided by that truncated count. -/
def dftStrength (pi : ℚ) (fsin fcos fsq : ℚ → ℚ) (samples : List ℚ)
    (frequency sampleRate : ℚ) : ℚ :=
  if samples.isEmpty then 0
  else
    let omega := 2 * pi * frequency / sampleRate
    let maxSamples := min samples.length (⌊sampleRate * (2/100)⌋.toNat)
    let sums := (List.range maxSamples).foldl
      (fun (sc : ℚ × ℚ) i =>
        (sc.1 + samples.getD i 0 * fsin (omega * i),
         sc.2 + samples.getD i 0 * fcos (omega * i)))
      (0, 0)
    fsq (sums.1 * sums.1 + sums.2 * sums.2) / maxSamples

/-! ## Chunk demodulation (src/unnamed/part_004, detectChunkValue) -/

/-- Frequency configuration of part_006 getFrequencyConfig: data grid
base and step (22200 Hz and 30 Hz in the source table). -/
structure FreqConfig where
  dataStart : ℚ
  step : ℚ

/-- The candidate energy part_004 detectChunkValue evaluates for value
val: the Goertzel probe at targetFreq = dataStart + val * step. -/
def chunkCandidateEnergy (pi : ℚ) (fcos fsq : ℚ → ℚ) (samples : List ℚ)
    (sampleRate : ℚ) (config : FreqConfig) (val : ℕ) : ℚ :=
  calculateFrequencyStrength pi fcos fsq samples (config.dataStart + val * config.step) sampleRate

/-- The argmax loop of detectChunkValue over the first n candidate
values: maxEnergy starts at -1, bestValue at 0; each value replaces the
pair when its energy is strictly greater. -/
def argmaxFold (e : ℕ → ℚ) (n : ℕ) : ℕ × ℚ :=
  (List.range n).foldl (fun best val => if e val > best.2 then (val, e val) else best) (0, -1)

/-- The argmax loop of detectChunkValue: the source iterates val from 0
to 63 inclusive. -/
def argmaxLoop (e : ℕ → ℚ) : ℕ × ℚ :=
  argmaxFold e 64

/-- SoundQRDecoder.detectChunkValue (part_004 lines 392-411):
winner-take-all over the 64 grid candidates. -/
def detectChunkValue (pi : ℚ) (fcos fsq : ℚ → ℚ) (samples : List ℚ)
    (sampleRate : ℚ) (config : FreqConfig) : ℕ :=
  (argmaxLoop (chunkCandidateEnergy pi fcos fsq samples sampleRate config)).1

/-! ## Ensemble bit voting (src/src/services/steganographyService.js,
detectBitWithFallback lines 330-364) -/

/-- Key list of the voteCount object in enumeration order.  The keys of
the object are the strings 0 and 1, which are integer-like (array-index)
keys: ECMAScript enumerates such keys in ascending numeric order
regardless of insertion order, so 0 always precedes 1 whenever both are
present. -/
def voteKeys (votes : List Bool) : List Bool :=
  (if false ∈ votes then [false] else []) ++ (if true ∈ votes then [true] else [])

/-- The vote aggregation of detectBitWithFallback: filter out nulls,
return null if nothing remains, otherwise reduce the enumeration-ordered
keys with (a, b) => voteCount[a] > voteCount[b] ? a : b; on equal counts
the reduce keeps the second key, which by the numeric key order is
always the 1 bit. -/
def voteBits (b1 b2 b3 b4 : Option Bool) : Option Bool :=
  let votes := [b1, b2, b3, b4].filterMap id
  match voteKeys votes with
  | [] => none
  | k :: ks => some (ks.foldl (fun a b => if votes.count a > votes.count b then a else b) k)

/-- detectBitWithFallback runs the four detectors (correlation, relaxed
correlation, direct DFT, zero crossing) on the segment and aggregates
their results with voteBits.  The detectors themselves are
floating-point signal processing and enter as function parameters. -/
def detectBitWithFallback (d1 d2 d3 d4 : List ℚ → ℚ → Option Bool)
    (segment : List ℚ) (sampleRate : ℚ) : Option Bool :=
  voteBits (d1 segment sampleRate) (d2 segment sampleRate)
    (d3 segment sampleRate) (d4 segment sampleRate)

/-! ## Multi-channel buffers and mixing -/

/-- A web-audio AudioBuffer: channel count, frame count, and the sample
of each channel at each index.  Reads outside the stored range are 0,
the value a freshly created buffer holds. -/
structure AudioBuffer where
  channels : ℕ
  len : ℕ
  data : ℕ → ℕ → ℚ

/-- AudioProcessor.mixAudioBuffers (src/src/utils/audioUtils.js lines
122-154): a new buffer of length max(originalLength, encodedLength) with
the original channels copied in, and the encoded samples scaled by
amplitude added to channel 0 only. -/
def mixAudioBuffers (orig : AudioBuffer) (encodedSamples : List ℚ) (amplitude : ℚ) :
    AudioBuffer :=
  { channels := orig.channels
    len := max orig.len encodedSamples.length
    data := fun ch i =>
      if ch < orig.channels ∧ i < max orig.len encodedSamples.length then
        (if i < orig.len then orig.data ch i else 0) +
          (if ch = 0 ∧ i < encodedSamples.length then encodedSamples.getD i 0 * amplitude else 0)
      else 0 }

/-- SoundQREncoder.mixBuffers (src/src/utils/soundQREncoder.js lines
188-206): for EVERY channel of the base, out[i] = (base sample or 0) +
(channel-0 overlay sample or 0), length max(baseLength, overlayLength). -/
def mixBuffers (base overlay : AudioBuffer) : AudioBuffer :=
  { channels := base.channels
    len := max base.len overlay.len
    data := fun ch i =>
      if ch < base.channels ∧ i < max base.len overlay.len then
        (if i < base.len then base.data ch i else 0) +
          (if i < overlay.len then overlay.data 0 i else 0)
      else 0 }

/-! ## Embed amplitude (src/src/utils/soundQREncoder.js lines 23-29,
src/unnamed/part_005 lines 148-158) -/

/-- The peak loop of encode: peak = max(peak, abs(s)) over the channel-0
samples, starting from 0. -/
def peakOf (carrier : List ℚ) : ℚ :=
  carrier.foldl (fun peak s => max peak |s|) 0

/-- embedAmplitude = max(peak * 0.1, 0.02): minus 20 dB relative to the
carrier peak with an absolute floor of 0.02. -/
def embedAmplitude (carrier : List ℚ) : ℚ :=
  max (peakOf carrier * (1/10)) (1/50)

/-! ## Encoder entry points -/

/-- Structured failure kinds of the encode paths. -/
inductive EncodeErr where
  | audioTooShort
  | chunkRange
deriving DecidableEq

/-- Duration-guarded encode of src/unnamed/part_005 (lines 137-189):
compute the peak amplitude, look up the cycle timing, and reject with
the audio-too-short error when carrier duration (length / sampleRate) is
below totalTime * cycles / 1000 seconds; otherwise run the tone
synthesis stage, abstracted as the parameter synth applied to the
computed embed amplitude. -/
def part005Encode (synth : ℚ → List ℚ) (carrier : List ℚ) (sampleRate : ℚ)
    (version cycles : ℕ) : Except EncodeErr (List ℚ) :=
  let amp := embedAmplitude carrier
  let timing := getCycleTiming version
  let requiredDur : ℚ := (timing.totalTime : ℚ) * cycles / 1000
  if ((carrier.length : ℚ) / sampleRate) < requiredDur then .error .audioTooShort
  else .ok (synth amp)

/-- SoundQREncoder.convertMatrixToChunks (soundQREncoder.js lines
209-231): column-major traversal, each column padded with zeros to a
multiple of 6 and split into 6-bit groups read as binary numerals, most
significant bit first. -/
def convertMatrixToChunks (matrix : List (List ℕ)) : List ℕ :=
  let size := matrix.length
  (List.range size).flatMap fun x =>
    let bits := (List.range size).map fun y => if entryAt matrix y x = 1 then 1 else 0
    let padded := bits ++ List.replicate ((6 - size % 6) % 6) 0
    (List.range (padded.length / 6)).map fun i =>
      ((padded.drop (6 * i)).take 6).foldl (fun v b => 2 * v + b) 0

/-- Version start-marker frequencies of part_006 getFrequencyConfig
(markers.versionStart). -/
def versionStartFreq : ℕ → Option ℚ
  | 1 => some 21000
  | 2 => some 21200
  | 3 => some 21400
  | 4 => some 21600
  | 5 => some 21800
  | _ => none

/-- AudioProcessor.getFrequencyForChunk (part_006): dataStart + value *
step for values 0..63, an out-of-range error otherwise. -/
def getFrequencyForChunk (value : ℕ) : Except EncodeErr ℚ :=
  if value < 64 then .ok (22200 + (value : ℚ) * 30) else .error .chunkRange

/-- Ultrasonic encode of src/src/utils/soundQREncoder.js (lines 10-106),
digital skeleton: amplitude from the carrier peak, chunks from the
matrix, then per cycle a start-marker tone, one tone per chunk, an
end-marker tone and 0.3 s of silence, all concatenated and mixed over
the carrier with mixBuffers.  The source passes config.markers.end as
the end-marker frequency, which in the part_006 table is the whole
per-version object rather than a number; no numeric frequency being
determined, the model passes the constant 0 to the tone parameter
there.  Tone synthesis is the parameter tone
(frequency, duration seconds, amplitude); the QR matrix stands in for
the external QR library output.  The only error exit in this path is
the chunk-range guard of getFrequencyForChunk: no duration check
exists. -/
def ultrasonicEncode (tone : ℚ → ℚ → ℚ → List ℚ) (carrier : AudioBuffer)
    (sampleRate : ℚ) (matrix : List (List ℕ)) (version cycles : ℕ) :
    Except EncodeErr AudioBuffer := do
  let channelData := (List.range carrier.len).map fun i => carrier.data 0 i
  let amp := embedAmplitude channelData
  let chunks := convertMatrixToChunks matrix
  let startFreq := (versionStartFreq version).getD 0
  let chunkTones ← chunks.mapM fun c => do
    let freq ← getFrequencyForChunk c
    pure (tone freq (60/1000) amp)
  let cyclePart :=
    tone startFreq (100/1000) amp ++ chunkTones.flatten ++
      tone 0 (100/1000) amp ++ List.replicate (⌊sampleRate * (3/10)⌋.toNat) 0
  let encodedSignal := (List.range cycles).flatMap fun _ => cyclePart
  let encodedBuffer : AudioBuffer :=
    { channels := 1, len := encodedSignal.length, data := fun _ i => encodedSignal.getD i 0 }
  pure (mixBuffers carrier encodedBuffer)

/-! ## Padding validation (src/src/utils/qrUtils.js lines 276-353,
QRProcessor.validatePadding and reconstructColumn of the second
processor variant) -/

/-- The version table of that processor variant: matrix size, chunks per
column, padded bit count and per-column time. -/
structure VersionSpec2 where
  size : ℕ
  chunks : ℕ
  paddedBits : ℕ
  timePerColumn : ℕ
deriving DecidableEq

/-- versionSpecs lookup of the second QRProcessor variant. -/
def versionSpecs2 : ℕ → Option VersionSpec2
  | 1 => some ⟨21, 4, 24, 40⟩
  | 2 => some ⟨25, 5, 30, 50⟩
  | 3 => some ⟨29, 5, 30, 50⟩
  | 4 => some ⟨33, 6, 36, 60⟩
  | 5 => some ⟨37, 7, 42, 70⟩
  | _ => none

/-- QRProcessor.validatePadding: false for an unknown version, a wrong
chunk count, or a chunk outside 0..63; otherwise build the concatenated
6-bit MSB binary string of the chunks and require the final
paddedBits - size characters to all be 0. -/
def validatePadding (chunks : List ℤ) (version : ℕ) : Bool :=
  match versionSpecs2 version with
  | none => false
  | some spec =>
    if chunks.length ≠ spec.chunks then false
    else if ¬ chunks.all (fun c => decide (0 ≤ c ∧ c ≤ 63)) then false
    else
      let binaryData := (chunks.map fun c => msbBits6 c.toNat).flatten
      let paddingBits := spec.paddedBits - spec.size
      if 0 < paddingBits then
        (binaryData.drop (binaryData.length - paddingBits)).all (fun b => !b)
      else true

/-! ## Concrete inputs used by counterexamples and witnesses -/

/-- The version-1 spec record, as returned by getVersionSpec 1. -/
def spec1 : VersionSpec := ⟨21, 25, 6⟩

/-- A concrete 21-by-21 bit matrix whose only dark module is (0, 0):
the simplest version-1-sized matrix on which the two bit orders of the
repository disagree. -/
def sampleMatrix21 : List (List ℕ) :=
  ((List.replicate 21 0).set 0 1) :: List.replicate 20 (List.replicate 21 0)

/-- A two-channel, one-frame carrier whose channel 1 holds sample 1/2. -/
def stereoCarrier : AudioBuffer :=
  ⟨2, 1, fun ch i => if ch = 1 ∧ i = 0 then 1/2 else 0⟩

/-- A mono, one-frame control buffer holding sample 1/4. -/
def monoControl : AudioBuffer :=
  ⟨1, 1, fun ch i => if ch = 0 ∧ i = 0 then 1/4 else 0⟩

/-! ## Helper lemmas on the bit-packing layer -/

theorem chunkBitsLSB_zero (f : ℕ → Bool) : chunkBitsLSB 0 f = 0 := rfl

theorem chunkBitsLSB_succ (n : ℕ) (f : ℕ → Bool) :
    chunkBitsLSB (n + 1) f =
      if f n then chunkBitsLSB n f ||| (1 <<< n) else chunkBitsLSB n f := by
  simp [chunkBitsLSB, List.range_succ]

theorem chunkBitsLSB_lt (n : ℕ) (f : ℕ → Bool) : chunkBitsLSB n f < 2 ^ n := by
  induction n with
  | zero => simp [chunkBitsLSB_zero]
  | succ n ih =>
    rw [chunkBitsLSB_succ]
    have h2 : (2 : ℕ) ^ n < 2 ^ (n + 1) := by
      have := Nat.pow_lt_pow_right (a := 2) (by omega) (Nat.lt_succ_self n)
      simpa using this
    split
    · have hsh : (1 <<< n) = 2 ^ n := by simp [Nat.shiftLeft_eq]
      rw [hsh]
      exact Nat.or_lt_two_pow (Nat.lt_trans ih h2) h2
    · exact Nat.lt_trans ih h2

theorem chunkBitsLSB_testBit (n : ℕ) (f : ℕ → Bool) (b : ℕ) :
    (chunkBitsLSB n f).testBit b = (decide (b < n) && f b) := by
  induction n with
  | zero => simp [chunkBitsLSB_zero]
  | succ n ih =>
    rw [chunkBitsLSB_succ]
    have hsh : (1 <<< n) = 2 ^ n := by simp [Nat.shiftLeft_eq]
    rcases Nat.lt_trichotomy b n with hb | hb | hb
    · have hb1 : b < n + 1 := Nat.lt_succ_of_lt hb
      have hbn : ¬ (n = b) := fun h => absurd h.symm (Nat.ne_of_lt hb)
      split <;> simp [Nat.testBit_or, hsh, ih, Nat.testBit_two_pow, hb, hb1, hbn]
    · subst hb
      split
      · simp_all [Nat.testBit_or, hsh, Nat.testBit_two_pow]
      · simp_all
    · have hb1 : ¬ (b < n + 1) := by omega
      have hbn : ¬ (n = b) := Nat.ne_of_lt hb
      have hb2 : ¬ (b < n) := by omega
      split <;> simp [Nat.testBit_or, hsh, ih, Nat.testBit_two_pow, hb1, hbn, hb2]

theorem getD_range_map {α : Type} (g : ℕ → α) (n i : ℕ) (d : α) (h : i < n) :
    ((List.range n).map g).getD i d = g i := by
  simp [List.getD_eq_getElem?_getD, List.getElem?_map, List.getElem?_range, h]

theorem getD_range_map_ge {α : Type} (g : ℕ → α) (n i : ℕ) (d : α) (h : n ≤ i) :
    ((List.range n).map g).getD i d = d := by
  have hlen : ((List.range n).map g).length ≤ i := by simpa using h
  simp [List.getD_eq_getElem?_getD, List.getElem?_eq_none hlen]

theorem shiftRight_and_one (v b : ℕ) : (v >>> b) &&& 1 = if v.testBit b then 1 else 0 := by
  have h2 : v / 2 ^ b % 2 < 2 := Nat.mod_lt _ (by omega)
  by_cases h : v / 2 ^ b % 2 = 1
  · simp [Nat.and_one_is_mod, Nat.shiftRight_eq_div_pow, Nat.testBit_to_div_mod, h]
  · have ht : v.testBit b = false := by simp [Nat.testBit_to_div_mod, h]
    rw [ht]
    simp only [Nat.and_one_is_mod, Nat.shiftRight_eq_div_pow, if_false, Bool.false_eq_true]
    omega

theorem processColumn_length (m : List (List ℕ)) (col : ℕ) (spec : VersionSpec) :
    (processColumn m col spec).length = (spec.size + spec.chunkSize - 1) / spec.chunkSize := by
  simp [processColumn]

theorem processColumn_testBit (m : List (List ℕ)) (col : ℕ) (sz cap : ℕ) (i b : ℕ) :
    ((processColumn m col ⟨sz, cap, 6⟩).getD i 0).testBit b =
      (decide (i < (sz + 5) / 6) && (decide (b < 6) &&
        decide (i * 6 + b < sz ∧ entryAt m (i * 6 + b) col = 1))) := by
  simp only [processColumn, show sz + 6 - 1 = sz + 5 from by omega]
  by_cases hi : i < (sz + 5) / 6
  · rw [getD_range_map _ _ _ _ hi, chunkBitsLSB_testBit]
    simp [hi]
  · rw [getD_range_map_ge _ _ _ _ (by omega)]
    simp [hi]

/-! ## Claim C2 -/

/-- C2 (amended): for every square bit matrix and every column, the
LSB-first reconstruction chunksToMatrixColumn is a left inverse of the
LSB-first packing processColumn: it returns exactly the original column
bits; moreover every chunk is below 64 and the trailing padding bits
beyond the matrix size are zero.  The MSB-first reconstruction inside
part_004 decodeCycle does not share this bit order (see the
counterexample theorem). -/
theorem chunksToMatrixColumn_left_inverse (sz cap : ℕ) (m : List (List ℕ)) (col : ℕ)
    (hbits : ∀ r < sz, entryAt m r col = 0 ∨ entryAt m r col = 1) :
    chunksToMatrixColumn (processColumn m col ⟨sz, cap, 6⟩) ⟨sz, cap, 6⟩ =
        columnOf m col sz
      ∧ (∀ c ∈ processColumn m col ⟨sz, cap, 6⟩, c < 64)
      ∧ (∀ i b : ℕ, sz ≤ i * 6 + b →
          ((processColumn m col ⟨sz, cap, 6⟩).getD i 0).testBit b = false) := by
  refine ⟨?_, ?_, ?_⟩
  · unfold chunksToMatrixColumn columnOf
    apply List.map_congr_left
    intro r hr
    have hr' : r < sz := List.mem_range.mp hr
    have hlen : (processColumn m col ⟨sz, cap, 6⟩).length = (sz + 5) / 6 := by
      rw [processColumn_length]
      show (sz + 6 - 1) / 6 = (sz + 5) / 6
      omega
    have hdiv : r / 6 < (sz + 5) / 6 := by omega
    simp only [hlen]
    rw [if_pos hdiv, shiftRight_and_one, processColumn_testBit]
    have hsum : r / 6 * 6 + r % 6 = r := by omega
    have hmod : r % 6 < 6 := by omega
    rcases hbits r hr' with h0 | h1
    · simp [hsum, h0]
    · simp [hsum, h1, hdiv, hmod, hr']
  · intro c hc
    simp only [processColumn, List.mem_map] at hc
    obtain ⟨i, -, rfl⟩ := hc
    exact chunkBitsLSB_lt 6 _
  · intro i b hb
    rw [processColumn_testBit]
    by_cases h6 : b < 6
    · have : ¬ (i * 6 + b < sz) := by omega
      simp [this]
    · simp [h6]

/-- C2 (counterexample): on the 21-by-21 matrix whose only dark module is
(0, 0), packing column 0 with processColumn and reconstructing it with
the MSB-first order of part_004 decodeCycle does not return the original
column: the set bit moves from row 0 to row 5. -/
theorem decodeColumnMSB_not_left_inverse :
    decodeColumnMSB (processColumn sampleMatrix21 0 spec1) 21 ≠
      columnOf sampleMatrix21 0 21 := by decide

/-- C2 (witness): the left-inverse theorem applied to the concrete
version-1 matrix sampleMatrix21 and column 0. -/
theorem chunksToMatrixColumn_left_inverse_witness :
    chunksToMatrixColumn (processColumn sampleMatrix21 0 ⟨21, 25, 6⟩) ⟨21, 25, 6⟩ =
        columnOf sampleMatrix21 0 21
      ∧ (∀ c ∈ processColumn sampleMatrix21 0 ⟨21, 25, 6⟩, c < 64)
      ∧ (∀ i b : ℕ, 21 ≤ i * 6 + b →
          ((processColumn sampleMatrix21 0 ⟨21, 25, 6⟩).getD i 0).testBit b = false) :=
  chunksToMatrixColumn_left_inverse 21 25 sampleMatrix21 0 (by decide)

/-! ## Claim C1 -/

/-- C1: the round trip fails already at the exact digital layer.  Even
when every transmitted chunk value is detected perfectly, feeding the
chunk stream part_005 emits through processColumn into the column
reconstruction of part_004 decodeCycle does not return the encoded
matrix, because the encoder packs column bits LSB-first while this
decoder unpacks them MSB-first: on sampleMatrix21 the dark module moves
from row 0 to row 5, so decode(encode(silence, text, version, 3)) cannot
equal the original text. -/
theorem decode_encode_digital_mismatch :
    decodeMatrixPart004 (encoderColumns sampleMatrix21 spec1) 21 ≠ sampleMatrix21 := by
  decide

/-! ## Claim C6 -/

theorem flatten_msbBits6_length (l : List ℕ) :
    ((l.map msbBits6).flatten).length = 6 * l.length := by
  induction l with
  | nil => simp
  | cons a t ih => simp [msbBits6, ih]; omega

/-- C6 (amended): the demodulation path performs no padding validation.
The reconstruction of part_004 decodeCycle always yields a full column
of matrixSize rows, and its output depends only on the first matrixSize
bits of the chunk stream: two streams with the same chunk count that
agree on the bits below the row count reconstruct identically, so the
discarded padding bits are never inspected and no column is marked
corrupted.  validatePadding implements the check the spec describes but
is reachable only through reconstructColumn, which no decode path
calls. -/
theorem decodeColumnMSB_ignores_padding (chunks chunks2 : List ℕ) (rows : ℕ)
    (hlen : chunks.length = chunks2.length)
    (hagree : ∀ r < rows, ((chunks.map msbBits6).flatten).getD r false =
        ((chunks2.map msbBits6).flatten).getD r false) :
    decodeColumnMSB chunks rows = decodeColumnMSB chunks2 rows
    ∧ (decodeColumnMSB chunks rows).length = rows := by
  constructor
  · unfold decodeColumnMSB
    apply List.map_congr_left
    intro r hr
    have hr' : r < rows := List.mem_range.mp hr
    have hflat : ((chunks.map msbBits6).flatten).length =
        ((chunks2.map msbBits6).flatten).length := by
      rw [flatten_msbBits6_length, flatten_msbBits6_length, hlen]
    rw [hflat, hagree r hr']
  · simp [decodeColumnMSB]

/-- C6 (counterexample): the chunk stream 0,0,0,63 fails the repository's
own validatePadding for version 1 (its three padding bits are 1), yet
the part_004 reconstruction incorporates it as a normal column with rows
18, 19, 20 set, with no failure and no corruption mark. -/
theorem validatePadding_dead_in_decode :
    validatePadding [0, 0, 0, 63] 1 = false
    ∧ decodeColumnMSB [0, 0, 0, 63] 21 = List.replicate 18 0 ++ [1, 1, 1] := by decide

/-- C6 (witness): the padding-blindness theorem applied to the streams
0,0,0,63 and 0,0,0,56, which agree on the 21 data bits and differ only
in the padding bits. -/
theorem decodeColumnMSB_ignores_padding_witness :
    decodeColumnMSB [0, 0, 0, 63] 21 = decodeColumnMSB [0, 0, 0, 56] 21
    ∧ (decodeColumnMSB [0, 0, 0, 63] 21).length = 21 :=
  decodeColumnMSB_ignores_padding [0, 0, 0, 63] [0, 0, 0, 56] 21 (by decide)
    (by decide)

/-! ## Claim C5 -/

theorem peakOf_zeros (l : List ℚ) (h : ∀ s ∈ l, s = 0) : peakOf l = 0 := by
  induction l with
  | nil => rfl
  | cons a t ih =>
    have ha : a = 0 := h a (by simp)
    have ht : ∀ s ∈ t, s = 0 := fun s hs => h s (by simp [hs])
    simp only [peakOf, List.foldl_cons, ha, abs_zero, max_self]
    exact ih ht

/-- C5: the encoder computes embedAmplitude = max(peak * 0.1, 0.02), a
fixed positive floor of 0.02, so the amplitude is always positive; on an
all-zero (silent) carrier the peak is 0 and the amplitude is exactly the
floor, hence the embedded signal is non-zero. -/
theorem embedAmplitude_floor (carrier : List ℚ) :
    0 < embedAmplitude carrier
    ∧ (1/50 : ℚ) ≤ embedAmplitude carrier
    ∧ ((∀ s ∈ carrier, s = 0) → embedAmplitude carrier = 1/50)
    ∧ embedAmplitude carrier = max (peakOf carrier * (1/10)) (1/50) := by
  refine ⟨?_, ?_, ?_, rfl⟩
  · exact lt_of_lt_of_le (by norm_num) (le_max_right (peakOf carrier * (1/10)) (1/50))
  · exact le_max_right (peakOf carrier * (1/10)) (1/50)
  · intro h
    unfold embedAmplitude
    rw [peakOf_zeros carrier h]
    norm_num

/-- C5 (witness): the floor theorem applied to the silent two-sample
carrier. -/
theorem embedAmplitude_floor_witness :
    0 < embedAmplitude [0, 0] ∧ embedAmplitude [0, 0] = 1/50 :=
  ⟨(embedAmplitude_floor [0, 0]).1,
   (embedAmplitude_floor [0, 0]).2.2.1 (by intro s hs; simpa using hs)⟩

/-! ## Claim C7 -/

/-- C7 (amended): AudioProcessor.mixAudioBuffers adds the control signal
to channel 0 only: the output length is max(carrierLength,
controlLength), every other channel keeps the carrier samples unchanged
inside the carrier range and is zero-extended beyond it, and channel 0
carries carrier plus amplitude-scaled control.  The variant
SoundQREncoder.mixBuffers does not have this property: it adds the mono
overlay to every channel (see the counterexample theorem). -/
theorem mixAudioBuffers_channel_zero (orig : AudioBuffer) (enc : List ℚ) (amp : ℚ)
    (hch0 : 0 < orig.channels) :
    (mixAudioBuffers orig enc amp).len = max orig.len enc.length
    ∧ (∀ ch, ch ≠ 0 → ch < orig.channels →
        (∀ i, i < orig.len → (mixAudioBuffers orig enc amp).data ch i = orig.data ch i)
        ∧ (∀ i, orig.len ≤ i → (mixAudioBuffers orig enc amp).data ch i = 0))
    ∧ (∀ i, i < enc.length →
        (mixAudioBuffers orig enc amp).data 0 i =
          (if i < orig.len then orig.data 0 i else 0) + enc.getD i 0 * amp) := by
  refine ⟨rfl, ?_, ?_⟩
  · intro ch hch hlt
    constructor
    · intro i hi
      show (if ch < orig.channels ∧ i < max orig.len enc.length then _ else 0) = orig.data ch i
      rw [if_pos ⟨hlt, by omega⟩]
      simp [hch, hi]
    · intro i hi
      show (if ch < orig.channels ∧ i < max orig.len enc.length then _ else 0) = 0
      by_cases him : i < max orig.len enc.length
      · rw [if_pos ⟨hlt, him⟩]
        simp [hch, show ¬ i < orig.len by omega]
      · rw [if_neg (by tauto)]
  · intro i hi
    show (if 0 < orig.channels ∧ i < max orig.len enc.length then _ else 0) = _
    rw [if_pos ⟨hch0, by omega⟩]
    simp [hi]

/-- C7 (counterexample): SoundQREncoder.mixBuffers changes channel 1.
On the concrete stereo carrier with channel-1 sample 1/2 and the mono
control with sample 1/4, the mixed channel-1 sample is 3/4, not the
unchanged carrier sample 1/2. -/
theorem mixBuffers_alters_second_channel :
    (mixBuffers stereoCarrier monoControl).data 1 0 = 3/4
    ∧ stereoCarrier.data 1 0 = 1/2
    ∧ (mixBuffers stereoCarrier monoControl).data 1 0 ≠ stereoCarrier.data 1 0 := by
  refine ⟨?_, ?_, ?_⟩ <;> norm_num [mixBuffers, stereoCarrier, monoControl]

/-- C7 (witness): the channel-0 theorem applied to the concrete stereo
carrier and a one-sample control list. -/
theorem mixAudioBuffers_channel_zero_witness :
    (mixAudioBuffers stereoCarrier [1/4] 1).data 1 0 = stereoCarrier.data 1 0
    ∧ (mixAudioBuffers stereoCarrier [1/4] 1).data 0 0 =
        (if 0 < stereoCarrier.len then stereoCarrier.data 0 0 else 0) + (1/4 : ℚ) * 1
    ∧ (mixAudioBuffers stereoCarrier [1/4] 1).len = max stereoCarrier.len 1 :=
  ⟨((mixAudioBuffers_channel_zero stereoCarrier [1/4] 1 (by norm_num [stereoCarrier])).2.1
      1 (by norm_num) (by norm_num [stereoCarrier])).1 0 (by norm_num [stereoCarrier]),
   by
    have h := (mixAudioBuffers_channel_zero stereoCarrier [1/4] 1
      (by norm_num [stereoCarrier])).2.2 0 (by norm_num)
    simpa using h,
   (mixAudioBuffers_channel_zero stereoCarrier [1/4] 1 (by norm_num [stereoCarrier])).1⟩

/-! ## Claim C4 -/

/-- C4 (amended): the part_005 encode rejects with the structured
audio-too-short error whenever the carrier duration is below
totalTime * cycles / 1000 seconds; in particular, for every cycle count
of at least 1, any carrier shorter than one full cycle for the requested
version is rejected, and the rejection is independent of the tone
synthesis stage (the result is the same error for every synthesis
function, so no synthesis work determines it).  The ultrasonic encode of
soundQREncoder.js performs no such check (see the counterexample
theorem). -/
theorem part005Encode_rejects_short (synth : ℚ → List ℚ) (carrier : List ℚ)
    (sampleRate : ℚ) (version cycles : ℕ) (hcy : 1 ≤ cycles)
    (hshort : (carrier.length : ℚ) / sampleRate <
      ((getCycleTiming version).totalTime : ℚ) / 1000) :
    part005Encode synth carrier sampleRate version cycles = .error .audioTooShort := by
  have h1 : ((getCycleTiming version).totalTime : ℚ) / 1000 ≤
      ((getCycleTiming version).totalTime : ℚ) * cycles / 1000 := by
    apply div_le_div_of_nonneg_right ?_ (by norm_num)
    · exact le_mul_of_one_le_right (Nat.cast_nonneg _) (by exact_mod_cast hcy)
  unfold part005Encode
  rw [if_pos (lt_of_lt_of_le hshort h1)]

/-- C4 (counterexample): the ultrasonic encode path accepts a carrier of
a single sample at 100 Hz sample rate (duration 0.01 s, far below the
5.54 s version-1 cycle): the encode returns an ok result, with no
InsufficientCarrierDuration rejection anywhere in this path. -/
theorem ultrasonicEncode_accepts_short_carrier :
    ((1 : ℚ) / 100 < ((getCycleTiming 1).totalTime : ℚ) / 1000)
    ∧ (ultrasonicEncode (fun _ _ a => [a]) ⟨1, 1, fun _ _ => 0⟩ 100
        sampleMatrix21 1 3).isOk = true := by
  constructor
  · norm_num [getCycleTiming]
  · decide

/-- C4 (witness): the duration-guard theorem applied to the empty
carrier at 44100 Hz, version 1, 3 cycles, with a one-sample synthesis
stage. -/
theorem part005Encode_rejects_short_witness :
    part005Encode (fun a => [a]) [] 44100 1 3 = .error .audioTooShort :=
  part005Encode_rejects_short (fun a => [a]) [] 44100 1 3 (by norm_num)
    (by norm_num [getCycleTiming])

/-! ## Claim C3 -/

theorem goertzelIter_eq_foldl (c : ℚ) (l : List ℚ) (qs : ℚ × ℚ) :
    goertzelIter c l qs = l.foldl (fun (q : ℚ × ℚ) s => (c * q.1 - q.2 + s, q.1)) qs := by
  induction l generalizing qs with
  | nil => rfl
  | cons s t ih =>
    obtain ⟨q1, q2⟩ := qs
    simp [goertzelIter, ih]

/-- C3 (amended): for every non-empty sample buffer, frequency and
sample rate (and every rational model of Math.PI, Math.cos and
Math.sqrt), the part_004 probe calculateFrequencyStrength equals the
Goertzel reference definition written from the spec, and the candidate
energy evaluated by part_004 chunk demodulation for every grid value is
exactly this formula at dataStart + val * step.  The soundQRDecoder.js
probe variant does not equal the reference (see the counterexample
theorem). -/
theorem calculateFrequencyStrength_is_goertzel (pi : ℚ) (fcos fsq : ℚ → ℚ)
    (samples : List ℚ) (frequency sampleRate : ℚ) (config : FreqConfig)
    (_hne : samples ≠ []) :
    calculateFrequencyStrength pi fcos fsq samples frequency sampleRate =
      goertzelStrength pi fcos fsq samples frequency sampleRate
    ∧ ∀ val : ℕ, chunkCandidateEnergy pi fcos fsq samples sampleRate config val =
        goertzelStrength pi fcos fsq samples (config.dataStart + val * config.step)
          sampleRate := by
  have key : ∀ freq : ℚ, calculateFrequencyStrength pi fcos fsq samples freq sampleRate =
      goertzelStrength pi fcos fsq samples freq sampleRate := by
    intro freq
    simp only [calculateFrequencyStrength, goertzelStrength, goertzelIter_eq_foldl]
    congr 1
    congr 1
    ring
  exact ⟨key frequency, fun val => key _⟩

/-- C3 (counterexample): the probe variant in soundQRDecoder.js is a
direct DFT truncated to the first 20 ms of samples and differs from the
Goertzel reference: at the two-sample buffer 1,1 with frequency 1 and
sample rate 50, under the rational instantiation pi = 3, sin = 0,
cos = 1, sqrt = id, the DFT variant returns 1 while the reference
returns 2. -/
theorem dftStrength_differs_from_goertzel :
    dftStrength 3 (fun _ => 0) (fun _ => 1) id [1, 1] 1 50 = 1
    ∧ goertzelStrength 3 (fun _ => 1) id [1, 1] 1 50 = 2
    ∧ dftStrength 3 (fun _ => 0) (fun _ => 1) id [1, 1] 1 50 ≠
        goertzelStrength 3 (fun _ => 1) id [1, 1] 1 50 := by
  have h1 : dftStrength 3 (fun _ => 0) (fun _ => 1) id [1, 1] 1 50 = 1 := by
    norm_num [dftStrength, List.range_succ]
  have h2 : goertzelStrength 3 (fun _ => 1) id [1, 1] 1 50 = 2 := by
    norm_num [goertzelStrength, goertzelIter]
  refine ⟨h1, h2, ?_⟩
  rw [h1, h2]
  norm_num

/-- C3 (witness): the refinement theorem applied to the one-sample
buffer with the identity models of cos and sqrt. -/
theorem calculateFrequencyStrength_is_goertzel_witness :
    calculateFrequencyStrength 3 id id [1] 1 50 = goertzelStrength 3 id id [1] 1 50
    ∧ chunkCandidateEnergy 3 id id [1] 50 ⟨22200, 30⟩ 0 =
        goertzelStrength 3 id id [1] (22200 + (0 : ℕ) * 30) 50 :=
  ⟨(calculateFrequencyStrength_is_goertzel 3 id id [1] 1 50 ⟨22200, 30⟩ (by decide)).1,
   (calculateFrequencyStrength_is_goertzel 3 id id [1] 1 50 ⟨22200, 30⟩ (by decide)).2 0⟩

/-! ## Claim C9 -/

/-- C9: totality of the guarded probe, and the division by zero of the
unguarded one.  The soundQRDecoder.js probe returns a non-negative
magnitude for every input and returns 0 on the empty buffer thanks to
its explicit empty guard, for every model of sqrt that is non-negative
(as Math.sqrt is on non-NaN results).  The part_004 probe has no such
guard: on the empty buffer it evaluates sqrt(0) divided by the zero
sample count, the division by zero the claim rules out (in IEEE
arithmetic omega is infinite and the result is NaN). -/
theorem dftStrength_total_nonneg (pi : ℚ) (fsin fcos fsq : ℚ → ℚ)
    (frequency sampleRate : ℚ) (hnn : ∀ x, 0 ≤ fsq x) :
    (∀ samples, 0 ≤ dftStrength pi fsin fcos fsq samples frequency sampleRate)
    ∧ dftStrength pi fsin fcos fsq [] frequency sampleRate = 0
    ∧ calculateFrequencyStrength pi fcos fsq [] frequency sampleRate = fsq 0 / 0 := by
  refine ⟨?_, rfl, ?_⟩
  · intro samples
    unfold dftStrength
    split
    · exact le_refl 0
    · exact div_nonneg (hnn _) (Nat.cast_nonneg _)
  · unfold calculateFrequencyStrength
    norm_num

/-- C9 (witness): the totality theorem applied with the absolute-value
model of sqrt at a one-sample buffer. -/
theorem dftStrength_total_nonneg_witness :
    (0 ≤ dftStrength 3 id id (fun x => |x|) [1] 1 50)
    ∧ dftStrength 3 id id (fun x => |x|) [] 1 50 = 0 :=
  ⟨(dftStrength_total_nonneg 3 id id (fun x => |x|) 1 50 (fun x => abs_nonneg x)).1 [1],
   (dftStrength_total_nonneg 3 id id (fun x => |x|) 1 50 (fun x => abs_nonneg x)).2.1⟩

/-! ## Claim C10 -/

theorem argmaxFold_succ (e : ℕ → ℚ) (n : ℕ) :
    argmaxFold e (n + 1) =
      if e n > (argmaxFold e n).2 then (n, e n) else argmaxFold e n := by
  simp [argmaxFold, List.range_succ]

theorem argmaxFold_spec (e : ℕ → ℚ) (hnn : ∀ v, 0 ≤ e v) :
    ∀ n, 0 < n →
      (argmaxFold e n).1 < n
      ∧ (argmaxFold e n).2 = e (argmaxFold e n).1
      ∧ ∀ v < n, e v ≤ e (argmaxFold e n).1
          ∧ (e v = e (argmaxFold e n).1 → (argmaxFold e n).1 ≤ v) := by
  intro n
  induction n with
  | zero => omega
  | succ n ih =>
    intro _
    by_cases hn : 0 < n
    · obtain ⟨h1, h2, h3⟩ := ih hn
      rw [argmaxFold_succ]
      by_cases hgt : e n > (argmaxFold e n).2
      · rw [if_pos hgt]
        refine ⟨by omega, rfl, ?_⟩
        intro v hv
        rw [h2] at hgt
        by_cases hvn : v < n
        · exact ⟨le_of_lt (lt_of_le_of_lt (h3 v hvn).1 hgt), fun heq => by
            have := lt_of_le_of_lt (h3 v hvn).1 hgt
            rw [heq] at this
            exact absurd this (lt_irrefl _)⟩
        · have : v = n := by omega
          subst this
          exact ⟨le_refl _, fun _ => le_refl _⟩
      · rw [if_neg hgt]
        rw [h2] at hgt
        refine ⟨by omega, h2, ?_⟩
        intro v hv
        by_cases hvn : v < n
        · exact h3 v hvn
        · have : v = n := by omega
          subst this
          exact ⟨le_of_not_lt hgt, fun _ => by omega⟩
    · have : n = 0 := by omega
      subst this
      rw [argmaxFold_succ]
      have h0 : argmaxFold e 0 = (0, -1) := rfl
      rw [h0]
      have hpos : e 0 > (-1 : ℚ) := lt_of_lt_of_le (by norm_num) (hnn 0)
      rw [if_pos hpos]
      refine ⟨by omega, rfl, ?_⟩
      intro v hv
      have : v = 0 := by omega
      subst this
      exact ⟨le_refl _, fun _ => le_refl _⟩

theorem chunkCandidateEnergy_nonneg (pi : ℚ) (fcos fsq : ℚ → ℚ) (samples : List ℚ)
    (sampleRate : ℚ) (config : FreqConfig) (hnn : ∀ x, 0 ≤ fsq x) (v : ℕ) :
    0 ≤ chunkCandidateEnergy pi fcos fsq samples sampleRate config v := by
  unfold chunkCandidateEnergy calculateFrequencyStrength
  exact div_nonneg (hnn _) (Nat.cast_nonneg _)

theorem foldl_goertzel_zeros (c : ℚ) (n : ℕ) :
    (List.replicate n (0 : ℚ)).foldl
      (fun (q : ℚ × ℚ) s => (c * q.1 - q.2 + s, q.1)) (0, 0) = (0, 0) := by
  induction n with
  | zero => rfl
  | succ n ih =>
    rw [List.replicate_succ, List.foldl_cons]
    simpa using ih

theorem chunkCandidateEnergy_zeros (pi : ℚ) (fcos fsq : ℚ → ℚ) (sampleRate : ℚ)
    (config : FreqConfig) (hz : fsq 0 = 0) (n v : ℕ) :
    chunkCandidateEnergy pi fcos fsq (List.replicate n 0) sampleRate config v = 0 := by
  simp only [chunkCandidateEnergy, calculateFrequencyStrength, foldl_goertzel_zeros]
  norm_num [hz]

/-- C10: winner-take-all never abstains.  For every chunk window (and
every rational model of Math.cos and a non-negative model of Math.sqrt)
detectChunkValue returns a value below 64 that attains the maximum
candidate energy, ties resolving to the lowest grid index; and on an
all-zero window of any length every candidate energy is 0 and the
detector deterministically returns chunk value 0. -/
theorem detectChunkValue_winner_take_all (pi : ℚ) (fcos fsq : ℚ → ℚ)
    (sampleRate : ℚ) (config : FreqConfig)
    (hnn : ∀ x, 0 ≤ fsq x) (hz : fsq 0 = 0) :
    (∀ samples,
        detectChunkValue pi fcos fsq samples sampleRate config < 64
        ∧ ∀ v < 64,
            chunkCandidateEnergy pi fcos fsq samples sampleRate config v ≤
              chunkCandidateEnergy pi fcos fsq samples sampleRate config
                (detectChunkValue pi fcos fsq samples sampleRate config)
            ∧ (chunkCandidateEnergy pi fcos fsq samples sampleRate config v =
                chunkCandidateEnergy pi fcos fsq samples sampleRate config
                  (detectChunkValue pi fcos fsq samples sampleRate config) →
                detectChunkValue pi fcos fsq samples sampleRate config ≤ v))
    ∧ ∀ n, detectChunkValue pi fcos fsq (List.replicate n 0) sampleRate config = 0 := by
  constructor
  · intro samples
    obtain ⟨h1, h2, h3⟩ := argmaxFold_spec
      (chunkCandidateEnergy pi fcos fsq samples sampleRate config)
      (chunkCandidateEnergy_nonneg pi fcos fsq samples sampleRate config hnn)
      64 (by norm_num)
    exact ⟨h1, h3⟩
  · intro n
    obtain ⟨h1, h2, h3⟩ := argmaxFold_spec
      (chunkCandidateEnergy pi fcos fsq (List.replicate n 0) sampleRate config)
      (chunkCandidateEnergy_nonneg pi fcos fsq (List.replicate n 0) sampleRate config hnn)
      64 (by norm_num)
    have h30 := (h3 0 (by norm_num)).2
    rw [chunkCandidateEnergy_zeros pi fcos fsq sampleRate config hz n 0,
      chunkCandidateEnergy_zeros pi fcos fsq sampleRate config hz n _] at h30
    have := h30 rfl
    show (argmaxFold (chunkCandidateEnergy pi fcos fsq (List.replicate n 0)
      sampleRate config) 64).1 = 0
    omega

/-- C10 (witness): the winner-take-all theorem applied with the
absolute-value model of sqrt, on a one-sample window and on the all-zero
five-sample window. -/
theorem detectChunkValue_winner_take_all_witness :
    detectChunkValue 3 id (fun x => |x|) [1] 48000 ⟨22200, 30⟩ < 64
    ∧ detectChunkValue 3 id (fun x => |x|) (List.replicate 5 0) 48000 ⟨22200, 30⟩ = 0 :=
  ⟨((detectChunkValue_winner_take_all 3 id (fun x => |x|) 48000 ⟨22200, 30⟩
      (fun x => abs_nonneg x) abs_zero).1 [1]).1,
   (detectChunkValue_winner_take_all 3 id (fun x => |x|) 48000 ⟨22200, 30⟩
      (fun x => abs_nonneg x) abs_zero).2 5⟩

/-! ## Claim C8 -/

theorem voteBits_cases : ∀ v1 v2 v3 v4 : Option Bool,
    (voteBits v1 v2 v3 v4 = none ↔ [v1, v2, v3, v4].filterMap id = [])
    ∧ (∀ b : Bool, ([v1, v2, v3, v4].filterMap id).count (!b) <
        ([v1, v2, v3, v4].filterMap id).count b → voteBits v1 v2 v3 v4 = some b)
    ∧ (([v1, v2, v3, v4].filterMap id).count true =
          ([v1, v2, v3, v4].filterMap id).count false →
        [v1, v2, v3, v4].filterMap id ≠ [] →
        voteBits v1 v2 v3 v4 = some true) := by
  decide

/-- C8 (amended): for every segment and every choice of the four
detectors, detectBitWithFallback returns none exactly when all four
detectors return none, and returns the strict-majority bit when one
value has more non-null votes; but when the two vote counts are tied the
result is always the 1 bit - the vote object's integer-like keys 0 and 1
enumerate in ascending numeric order and the reduce keeps the later key
on equal counts - not the primary correlation detector's result. -/
theorem detectBitWithFallback_voting (d1 d2 d3 d4 : List ℚ → ℚ → Option Bool)
    (segment : List ℚ) (sampleRate : ℚ) :
    (detectBitWithFallback d1 d2 d3 d4 segment sampleRate = none ↔
      [d1 segment sampleRate, d2 segment sampleRate, d3 segment sampleRate,
        d4 segment sampleRate].filterMap id = [])
    ∧ (∀ b : Bool,
        ([d1 segment sampleRate, d2 segment sampleRate, d3 segment sampleRate,
          d4 segment sampleRate].filterMap id).count (!b) <
          ([d1 segment sampleRate, d2 segment sampleRate, d3 segment sampleRate,
            d4 segment sampleRate].filterMap id).count b →
        detectBitWithFallback d1 d2 d3 d4 segment sampleRate = some b)
    ∧ (([d1 segment sampleRate, d2 segment sampleRate, d3 segment sampleRate,
          d4 segment sampleRate].filterMap id).count true =
        ([d1 segment sampleRate, d2 segment sampleRate, d3 segment sampleRate,
          d4 segment sampleRate].filterMap id).count false →
        [d1 segment sampleRate, d2 segment sampleRate, d3 segment sampleRate,
          d4 segment sampleRate].filterMap id ≠ [] →
        detectBitWithFallback d1 d2 d3 d4 segment sampleRate = some true) :=
  voteBits_cases (d1 segment sampleRate) (d2 segment sampleRate)
    (d3 segment sampleRate) (d4 segment sampleRate)

/-- C8 (counterexample): a tied ensemble is not resolved by the primary
detector.  With the primary and relaxed correlation detectors voting 0
and the DFT and zero-crossing detectors voting 1 (a realisable pattern,
since a vote 0 by the primary detector forces a vote 0 by the relaxed
one), the result is 1 even though the primary correlation detector said
0. -/
theorem detectBitWithFallback_tie_not_primary :
    detectBitWithFallback (fun _ _ => some false) (fun _ _ => some false)
        (fun _ _ => some true) (fun _ _ => some true) [] 0 = some true
    ∧ ([some false, some false, some true, some true].filterMap
        (id : Option Bool → Option Bool)).count true =
      ([some false, some false, some true, some true].filterMap
        (id : Option Bool → Option Bool)).count false := by
  refine ⟨?_, by decide⟩
  show voteBits (some false) (some false) (some true) (some true) = some true
  decide

/-- C8 (witness): the voting theorem applied to constant detectors with
a strict 2-to-1 majority for 1. -/
theorem detectBitWithFallback_voting_witness :
    detectBitWithFallback (fun _ _ => some true) (fun _ _ => some true)
      (fun _ _ => some false) (fun _ _ => none) [1] 44100 = some true :=
  (detectBitWithFallback_voting (fun _ _ => some true) (fun _ _ => some true)
    (fun _ _ => some false) (fun _ _ => none) [1] 44100).2.1 true (by decide)

end SoundQR
